import Mathlib

/-!
# net-cat: the chat server of `handlers/server.go`

A shallow embedding of the connection registry, the per-connection reader,
the router (`printLoop`), the broadcaster and the log renderer.

Conventions of the embedding.

* Go `string` and `[]byte` values are Lean `String`s, one character for one
  byte; `len(x) > 0` is `x.length > 0` (both say "not empty").
* A `net.Conn` is identified by a natural number.
* Go maps are association lists with at most one entry per key; a lookup of
  a missing key yields the zero value, as in Go.
* The buffered channel `msgch` is the list of payloads queued in it, oldest
  first; it holds at most `chanCap` payloads, and a send on a full channel
  blocks.  A run of a function that sends is a `Run`: it has returned
  (`Run.done`), or its goroutine waits in a send (`Run.blocked`), and then the
  state is the one reached when the send was attempted.
* A payload queued by `readLoop` is the slice `buf[:n]` of the read buffer of
  that reader, not a copy: its bytes are those the buffer holds when the
  router decodes it.  The buffers are kept in `bufs`, one per connection.
* What goroutine runs when is not modelled beyond this: every operation below
  is one sequential run of the corresponding Go function, up to the point
  where it returns or blocks.
* Everything a function does to the outside world is recorded in the state:
  `conn.Write` in `writes`, `fmt.Println` in `console`, `conn.Close` in
  `closed`, `os.WriteFile` in `msglogsFile`.
* `time.Now()` is the `clock`-th reading of a wall clock `Env.timeNow`;
  every call advances `clock`.
-/

namespace NetCat

/-! ## Go maps as association lists -/

/-- Go `m[k]`: the value bound to `k`, or the zero value `zero`. -/
def mapGet {κ ν : Type} [DecidableEq κ] (m : List (κ × ν)) (k : κ) (zero : ν) : ν :=
  match m with
  | [] => zero
  | (k', v) :: rest => if k' = k then v else mapGet rest k zero

/-- Go `delete(m, k)`. -/
def mapDelete {κ ν : Type} [DecidableEq κ] (m : List (κ × ν)) (k : κ) : List (κ × ν) :=
  m.filter (fun p => decide (p.1 ≠ k))

/-- Go `m[k] = v`. -/
def mapSet {κ ν : Type} [DecidableEq κ] (m : List (κ × ν)) (k : κ) (v : ν) : List (κ × ν) :=
  (k, v) :: mapDelete m k

/-! ## Data model -/

/-- A `net.Conn`, by identity. -/
abbrev Conn := Nat

/-- Modelled from the spec: the `Msg` record, whose declaration is not in
`server.go`.  The four string fields and their order are those of the
positional literals `Msg{"notif", name, text, date}` and of the selectors
`.Type` (a Lean keyword, hence `Type_`), `.Author`, `.Text`, `.Date` used in `server.go`. -/
structure Msg where
  Type_ : String
  Author : String
  Text : String
  Date : String
deriving DecidableEq, Repr

/-- The zero value `Msg{}`. -/
def Msg.zero : Msg := ⟨"", "", "", ""⟩

/-- Functions that `server.go` calls and does not define: the helpers
`EncodeMsg` and `UserMsgDate` of the same package, `encoding/json`, and the
wall clock. -/
structure Env where
  /-- The helper `EncodeMsg(Msg) []byte`. -/
  EncodeMsg : Msg → String
  /-- The helper `UserMsgDate(author, date) string`. -/
  UserMsgDate : String → String → String
  /-- The call `json.Marshal(newMsg)` on a `Msg` (it cannot fail on a record of strings). -/
  jsonMarshal : Msg → String
  /-- The call `json.Marshal(MsgLog)`. -/
  jsonMarshalLog : List Msg → String
  /-- The call `json.Unmarshal(msg, &newMSG)` on `newMSG = Msg{}`: the value
  left in `newMSG`, and whether the returned `err` is `nil`. -/
  jsonUnmarshal : String → Msg × Bool
  /-- The formatted result of the `n`-th call of `time.Now()`. -/
  timeNow : Nat → String

/-- What is sent on `msgch`: a byte slice with an array of its own (the result
of `json.Marshal` or `EncodeMsg`), or the slice `buf[:n]` of the read buffer of
the reader of `conn`. -/
inductive Payload where
  | bytes (b : String)
  | slice (conn : Conn) (n : Nat)
deriving DecidableEq, Repr

/-- The `Server` record together with the package variables `ExistingUsers`
and `MsgLog`, and the record of the effects on the outside world. -/
structure Server where
  listenAddr : String
  /-- The payloads queued in `msgch`, oldest first. -/
  msgch : List Payload
  /-- The local `buf` of the `readLoop` of each connection: the bytes written
  into it so far, from index 0 (the bytes after them are still zero and no
  slice reaches them). -/
  bufs : List (Conn × String)
  clients : List (Conn × String)
  ExistingUsers : List (String × Bool)
  MsgLog : List Msg
  /-- The calls `conn.Write(b)`, in order. -/
  writes : List (Conn × String)
  /-- The lines printed by `fmt.Println`, in order. -/
  console : List String
  /-- The calls `conn.Close()`, in order. -/
  closed : List Conn
  /-- The content of `msglogs.json`, once written. -/
  msglogsFile : Option String
  /-- How many non-nil errors `LogError` was given. -/
  loggedErrors : Nat
  /-- How many times `time.Now()` was called. -/
  clock : Nat
deriving DecidableEq, Repr

/-- The package variable `maxUsers`, which no function assigns. -/
def maxUsers : Nat := 10

/-- The capacity of `msgch`: `make(chan []byte, 10)` in `NewServer`. -/
def chanCap : Nat := 10

/-- A run of a function that may send on `msgch`. -/
inductive Run where
  /-- The function has returned, in state `s`. -/
  | done (s : Server)
  /-- The goroutine waits in `s.msgch <- p`, the channel being full; `s` is
  the state reached at that point, and what follows the send has not run. -/
  | blocked (s : Server) (p : Payload)
deriving DecidableEq, Repr

/-- The state in which a run has returned or waits. -/
def Run.state : Run → Server
  | Run.done s => s
  | Run.blocked s _ => s

/-- What follows a call that may block: `next` runs once the call has returned. -/
def Run.andThen (r : Run) (next : Server → Run) : Run :=
  match r with
  | Run.done s => next s
  | Run.blocked s p => Run.blocked s p

/-- `NewServer`, with the package variables at their initial values. -/
def NewServer (listenAddr : String) : Server :=
  { listenAddr := listenAddr
    msgch := []
    bufs := []
    clients := []
    ExistingUsers := []
    MsgLog := []
    writes := []
    console := []
    closed := []
    msglogsFile := none
    loggedErrors := 0
    clock := 0 }

/-! ## Colours -/

/-- `fmt.Sprintf("\033[38;2;%d;%d;%dm", R, G, B)`. -/
def ColorAnsiStart (R G B : Int) : String :=
  "\x1b[38;2;" ++ toString R ++ ";" ++ toString G ++ ";" ++ toString B ++ "m"

def ColorAnsiEnd : String := "\x1b[0m"

def Orange : String := ColorAnsiStart 255 94 0

def Red : String := ColorAnsiStart 255 0 0

def Blue : String := ColorAnsiStart 0 60 255

def Colorize (msg : Msg) : Msg :=
  if msg.Type_ = "notif" then { msg with Text := Orange ++ msg.Text ++ ColorAnsiEnd }
  else if msg.Type_ = "error" then { msg with Text := Red ++ msg.Text ++ ColorAnsiEnd }
  else if msg.Type_ = "msg" then { msg with Text := Blue ++ msg.Text ++ ColorAnsiEnd ++ "\n" }
  else msg

/-! ## Effects -/

/-- One call of `time.Now().Format(...)`: the reading, and the state after it. -/
def timeNow (E : Env) (s : Server) : String × Server :=
  (E.timeNow s.clock, { s with clock := s.clock + 1 })

/-- Modelled from the spec: `LogError(err)`, a helper that is not in
`server.go`.  The spec has failures recorded and processing continue, so it
counts the error when there is one and returns. -/
def LogError (s : Server) (isErr : Bool) : Server :=
  if isErr then { s with loggedErrors := s.loggedErrors + 1 } else s

/-- `conn.Write(b)`; the error it may return is ignored by every caller. -/
def connWrite (s : Server) (conn : Conn) (b : String) : Server :=
  { s with writes := s.writes ++ [(conn, b)] }

/-- `fmt.Println(line)`. -/
def println (s : Server) (line : String) : Server :=
  { s with console := s.console ++ [line] }

/-- The payload joins the queue of `msgch`. -/
def enqueue (s : Server) (p : Payload) : Server :=
  { s with msgch := s.msgch ++ [p] }

/-- `s.msgch <- p`: the payload is queued when fewer than `chanCap` payloads
are pending, and the sender blocks otherwise. -/
def send (s : Server) (p : Payload) : Run :=
  if s.msgch.length < chanCap then Run.done (enqueue s p) else Run.blocked s p

/-- The bytes of a buffer after `conn.Read` has written `msg` at its start. -/
def overwrite (msg old : String) : String :=
  String.mk (msg.data ++ old.data.drop msg.data.length)

/-- A call `conn.Read(buf)` that returns the bytes `msg` (`n = len(msg)`, at
most 4096): they are written at the start of the buffer of the reader. -/
def connRead (s : Server) (conn : Conn) (msg : String) : Server :=
  { s with bufs := mapSet s.bufs conn (overwrite msg (mapGet s.bufs conn "")) }

/-- The bytes of a payload at the time it is looked at. -/
def payloadBytes (s : Server) : Payload → String
  | Payload.bytes b => b
  | Payload.slice conn n => String.mk ((mapGet s.bufs conn "").data.take n)

/-- `conn.Close()`. -/
def connClose (s : Server) (conn : Conn) : Server :=
  { s with closed := s.closed ++ [conn] }

/-! ## The operations of `server.go` -/

def closeConnection (s : Server) (conn : Conn) (client : String) : Server :=
  let s := { s with clients := mapDelete s.clients conn }
  let s := { s with ExistingUsers := mapSet s.ExistingUsers client false }
  connClose s conn

def BroadcastMsg (s : Server) (msg : String) (excluded : String) : Server :=
  s.clients.foldl
    (fun acc p => if p.2 ≠ excluded then connWrite acc p.1 msg else acc) s

/-- `MsgToClient`; the parameter `t` is not used by the Go function either.
The two `LogError` calls of the "logs" branch are given no error: a list of
records of strings is always marshalled, and the file write is taken to
succeed.  The bytes returned by `EncodeMsg` are taken to be in an array of
their own. -/
def MsgToClient (E : Env) (s : Server) (typeMsg txt _t : String) (conn : Conn) : Run :=
  let name := mapGet s.clients conn ""
  let (now, s) := timeNow E s
  let newMsg : Msg := ⟨typeMsg, name, txt, now⟩
  let newMsg := Colorize newMsg
  let req := E.EncodeMsg newMsg
  if typeMsg = "error" then
    let s := println s newMsg.Text
    Run.done (connWrite s conn req)
  else if typeMsg = "logs" then
    let logs := E.jsonMarshalLog s.MsgLog
    let s := LogError s false
    let s := { s with msglogsFile := some logs }
    let s := LogError s false
    Run.done (connWrite s conn req)
  else
    send s (Payload.bytes req)

def AddClient (E : Env) (s : Server) (conn : Conn) (name : String) : Run :=
  if !(mapGet s.ExistingUsers name false) && decide (s.clients.length < maxUsers) then
    let s := { s with clients := mapSet s.clients conn name }
    let s := { s with ExistingUsers := mapSet s.ExistingUsers name true }
    let (t, s) := timeNow E s
    (MsgToClient E s "notif" (name ++ " has joined our chat...") t conn).andThen fun s =>
      if s.MsgLog.length > 0 then
        let (t, s) := timeNow E s
        MsgToClient E s "logs" "Read the log file" t conn
      else Run.done s
  else if mapGet s.ExistingUsers name false then
    let (t, s) := timeNow E s
    MsgToClient E s "error" "That username already exists." t conn
  else if s.clients.length = 8 then
    let (t, s) := timeNow E s
    MsgToClient E s "error" "Max number of users reached." t conn
  else Run.done s

/-- The body of the `for msg := range s.msgch` loop of `printLoop`, for one
payload `msg` taken from the channel. -/
def printLoopBody (E : Env) (s : Server) (msg : Payload) : Server :=
  let r := E.jsonUnmarshal (payloadBytes s msg)
  let s := LogError s (!r.2)
  let newMSG := Colorize r.1
  let s := { s with MsgLog := s.MsgLog ++ [newMSG] }
  if newMSG.Text.length > 0 then
    let s := if newMSG.Type_ ≠ "msg" then println s newMSG.Text else s
    BroadcastMsg s (E.EncodeMsg newMSG) newMSG.Author
  else s

/-- `printLoop`: the payloads queued in `msgch` are taken and processed in
order (the body queues nothing). -/
def printLoop (E : Env) (s : Server) : Server :=
  s.msgch.foldl (printLoopBody E) { s with msgch := [] }

/-- The branch `err == io.EOF` of `readLoop` (lines 79 to 87). -/
def readLoopEOF (E : Env) (s : Server) (conn : Conn) : Run :=
  let name := mapGet s.clients conn ""
  let (now, s) := timeNow E s
  let newMsg : Msg := ⟨"notif", name, name ++ " has left our chat...", now⟩
  let req := E.jsonMarshal newMsg
  let s := LogError s false
  if newMsg.Author.length > 0 then
    (send s (Payload.bytes req)).andThen fun s =>
      Run.done (closeConnection s conn newMsg.Author)
  else Run.done s

/-- One turn of the loop of `readLoop` in which `conn.Read` returns the bytes
`msg` (lines 76 and 94 to 101): the run, and the value of `msgCount` when the
turn is over or when the reader blocks.  The first payload is copied into a
string (`string(msg)`); a later one is sent as the slice `buf[:n]`. -/
def readLoopPayload (E : Env) (s : Server) (conn : Conn) (msgCount : Nat) (msg : String) :
    Run × Nat :=
  let s := connRead s conn msg
  let r := if msgCount = 0 then AddClient E s conn msg
    else send s (Payload.slice conn msg.length)
  match r with
  | Run.done s => (Run.done s, msgCount + 1)
  | Run.blocked s p => (Run.blocked s p, msgCount)

/-- What one call of `conn.Read` returns: bytes (at most 4096 of them), the
end of the stream, or another error. -/
inductive ReadEvent where
  | data (msg : String)
  | eof
  | error (e : String)
deriving DecidableEq, Repr

/-- The loop of `readLoop` from a given `msgCount`, over the results of the
successive `conn.Read` calls; the deferred `conn.Close()` runs when the loop
breaks.  When the results run out the reader is still waiting in `conn.Read`;
when a send blocks, the reader reads no further. -/
def readLoopFrom (E : Env) (conn : Conn) : List ReadEvent → Server → Nat → Run × Nat
  | [], s, msgCount => (Run.done s, msgCount)
  | ReadEvent.data msg :: rest, s, msgCount =>
      match readLoopPayload E s conn msgCount msg with
      | (Run.done s, msgCount) => readLoopFrom E conn rest s msgCount
      | (Run.blocked s p, msgCount) => (Run.blocked s p, msgCount)
  | ReadEvent.eof :: _, s, msgCount =>
      ((readLoopEOF E s conn).andThen fun s => Run.done (connClose s conn), msgCount)
  | ReadEvent.error e :: _, s, msgCount =>
      (Run.done (connClose (println s ("read error: " ++ e)) conn), msgCount)

def readLoop (E : Env) (s : Server) (conn : Conn) (reads : List ReadEvent) : Run × Nat :=
  readLoopFrom E conn reads s 0

def MsgLogsToText (E : Env) (logs : List Msg) : String :=
  logs.foldl
    (fun txt msg =>
      let txt := if msg.Type_ = "msg" then txt ++ (Blue ++ E.UserMsgDate msg.Author msg.Date ++ ColorAnsiEnd) else txt
      let txt := txt ++ msg.Text
      if msg.Type_ = "error" ∨ msg.Type_ = "notif" then txt ++ "\n" else txt)
    ""

/-- The join notice of `name`, as `AddClient` has `MsgToClient` build it. -/
def joinNotice (E : Env) (s : Server) (name : String) : Payload :=
  Payload.bytes (E.EncodeMsg (Colorize ⟨"notif", name, name ++ " has joined our chat...",
    E.timeNow (s.clock + 1)⟩))

/-- The departure notice of the name bound to `conn`, as `readLoop` builds it. -/
def leftNotice (E : Env) (s : Server) (conn : Conn) : Payload :=
  Payload.bytes (E.jsonMarshal ⟨"notif", mapGet s.clients conn "",
    mapGet s.clients conn "" ++ " has left our chat...", E.timeNow s.clock⟩)

/-- The registry and the log, which no send and no write touches. -/
def SameRegistry (s s' : Server) : Prop :=
  s'.clients = s.clients ∧ s'.ExistingUsers = s.ExistingUsers ∧ s'.MsgLog = s.MsgLog

/-! ## Runs of the registry -/

/-- What a reader that waited in the send of its departure notice does once
the notice is queued: `closeConnection(conn, name)` with the name it had read
from `s.clients[conn]`, which was not empty. -/
def departGoesOn (s : Server) (conn : Conn) : Server :=
  if (mapGet s.clients conn "").length > 0
  then closeConnection s conn (mapGet s.clients conn "") else s

/-- What `AddClient` does once the join notice it waited to send is queued:
the "logs" message when the log is not empty. -/
def joinGoesOn (E : Env) (s : Server) (conn : Conn) : Server :=
  if s.MsgLog.length > 0 then
    (MsgToClient E (timeNow E s).2 "logs" "Read the log file" (timeNow E s).1 conn).state
  else s

/-- One step of the life of the registry.  A registration, a departure as
`readLoop` performs it when a connection reaches end of stream
(`closeConnection(conn, s.clients[conn])` behind the check that the name is
not empty), or a turn of the loop of a reader on a payload, each up to its
return or to the send in which it blocks; the router emptying the channel;
and what a blocked goroutine does when it goes on: its payload is queued once
there is room, and the rest of its function runs. -/
inductive Step (E : Env) : Server → Server → Prop
  | addClient (s : Server) (conn : Conn) (name : String) :
      Step E s (AddClient E s conn name).state
  | read (s : Server) (conn : Conn) (msgCount : Nat) (msg : String) :
      Step E s (readLoopPayload E s conn msgCount msg).1.state
  | depart (s : Server) (conn : Conn) : Step E s (readLoopEOF E s conn).state
  | route (s : Server) : Step E s (printLoop E s)
  | sendGoesOn (s : Server) (p : Payload) (room : s.msgch.length < chanCap) :
      Step E s (enqueue s p)
  | departGoesOn (s : Server) (conn : Conn) : Step E s (departGoesOn s conn)
  | joinGoesOn (s : Server) (conn : Conn) : Step E s (joinGoesOn E s conn)

/-- The states reached from the start of the program by steps of `Step`. -/
inductive Reachable (E : Env) : Server → Prop
  | init (listenAddr : String) : Reachable E (NewServer listenAddr)
  | step {s s' : Server} : Reachable E s → Step E s s' → Reachable E s'

/-- As `Step`, and also `closeConnection` called with any connection and any
name. -/
inductive StepAnyClose (E : Env) : Server → Server → Prop
  | step (s s' : Server) : Step E s s' → StepAnyClose E s s'
  | close (s : Server) (conn : Conn) (client : String) :
      StepAnyClose E s (closeConnection s conn client)

/-- The states reached from the start of the program by steps of `StepAnyClose`. -/
inductive ReachableAnyClose (E : Env) : Server → Prop
  | init (listenAddr : String) : ReachableAnyClose E (NewServer listenAddr)
  | step {s s' : Server} : ReachableAnyClose E s → StepAnyClose E s s' → ReachableAnyClose E s'

/-- What the registry keeps true: one entry per connection, every bound name
marked in `ExistingUsers`, and no name bound to two connections. -/
structure RegistryInv (s : Server) : Prop where
  keysNodup : (s.clients.map Prod.fst).Nodup
  seen : ∀ c u, (c, u) ∈ s.clients → mapGet s.ExistingUsers u false = true
  unique : ∀ c1 c2 u, (c1, u) ∈ s.clients → (c2, u) ∈ s.clients → c1 = c2

/-! ## A concrete environment and concrete runs -/

/-- The double quote. -/
def dq : Char := Char.ofNat 34

/-- A string between double quotes. -/
def quoted (x : String) : String := String.singleton dq ++ x ++ String.singleton dq

/-- A stand-in for `EncodeMsg` and `json.Marshal` on a `Msg`: the JSON object
of the four fields under their Go names, the values written as they are. -/
def sampleEncode (m : Msg) : String :=
  "\x7b" ++ quoted "Type" ++ ":" ++ quoted m.Type_ ++ "," ++ quoted "Author" ++ ":" ++ quoted m.Author
    ++ "," ++ quoted "Text" ++ ":" ++ quoted m.Text ++ "," ++ quoted "Date" ++ ":" ++ quoted m.Date
    ++ "\x7d"

/-- The pieces of a text between its double quotes. -/
def splitQuotes : List Char → List (List Char)
  | [] => [[]]
  | c :: cs =>
    match splitQuotes cs with
    | [] => [[]]
    | p :: ps => if c = dq then [] :: p :: ps else (c :: p) :: ps

/-- Stores the member `key: value` in the record; a key that names no field is skipped. -/
def assignField (m : Msg) (key value : List Char) : Msg :=
  if key = "Type".data then { m with Type_ := String.mk value }
  else if key = "Author".data then { m with Author := String.mk value }
  else if key = "Text".data then { m with Text := String.mk value }
  else if key = "Date".data then { m with Date := String.mk value }
  else m

/-- Reads the members `key":"value",` of an object from the pieces that follow
its first double quote. -/
def readMembers : List (List Char) → Msg → Option Msg
  | key :: colon :: value :: sep :: rest, m =>
    if colon = [':'] ∧ (Char.ofNat 92) ∉ value then
      if sep = [Char.ofNat 125] ∧ rest = [] then some (assignField m key value)
      else if sep = [','] then readMembers rest (assignField m key value)
      else none
    else none
  | _, _ => none

/-- A stand-in for `json.Unmarshal` into a `Msg{}`, for objects whose members
are strings without escapes and without blanks around them: anything else is
an error that leaves the record as it was. -/
def sampleDecode (payload : String) : Msg × Bool :=
  match splitQuotes payload.data with
  | first :: rest =>
    if first = [Char.ofNat 123] then
      match readMembers rest Msg.zero with
      | some m => (m, true)
      | none => (Msg.zero, false)
    else (Msg.zero, false)
  | [] => (Msg.zero, false)

/-- The environment on which the concrete runs below are evaluated. -/
def sampleEnv : Env :=
  { EncodeMsg := sampleEncode
    UserMsgDate := fun author date => "[" ++ date ++ "][" ++ author ++ "]:"
    jsonMarshal := sampleEncode
    jsonMarshalLog := fun logs => "[" ++ String.intercalate "," (logs.map sampleEncode) ++ "]"
    jsonUnmarshal := sampleDecode
    timeNow := fun n => "2024-05-01 10:00:" ++ toString (10 + n % 50) }

/-- Registers the given connections in order. -/
def registerAll (E : Env) : List (Conn × String) → Server → Server
  | [], s => s
  | (conn, name) :: rest, s => registerAll E rest (AddClient E s conn name).state

/-- Ten connections and the names they register. -/
def tenUsers : List (Conn × String) :=
  [(1, "ana"), (2, "bob"), (3, "cid"), (4, "dan"), (5, "eve"),
   (6, "fay"), (7, "gus"), (8, "hal"), (9, "ivy"), (10, "jon")]

/-- The server once ten connections have registered. -/
def fullServer : Server := registerAll sampleEnv tenUsers (NewServer "localhost:8989")

/-- The server once "alice" has registered on connection 1. -/
def aliceServer : Server := (AddClient sampleEnv (NewServer "localhost:8989") 1 "alice").state

/-- The server once "alice" and "bob" have registered on connections 1 and 2. -/
def aliceBobServer : Server := (AddClient sampleEnv aliceServer 2 "bob").state

/-- An error message with author "alice", as a payload. -/
def errorPayload : String := sampleEncode ⟨"error", "alice", "boom", "2024-05-01 10:00:20"⟩

/-- A chat message with author "alice", as a payload. -/
def chatPayload : String := sampleEncode ⟨"msg", "alice", "hi", "2024-05-01 10:00:21"⟩

/-- A "logs" entry of the log. -/
def logsEntry : Msg := ⟨"logs", "alice", "Read the log file", "2024-05-01 10:00:13"⟩

/-- The connections written to between the state `before` and the state `after`. -/
def writtenTo (before after : Server) : List Conn :=
  (after.writes.drop before.writes.length).map Prod.fst

/-! ## The rendering of the log, entry by entry -/

/-- The author and date put before the body of a chat entry. -/
def chatHead (E : Env) (m : Msg) : String :=
  Blue ++ E.UserMsgDate m.Author m.Date ++ ColorAnsiEnd

/-- The piece of the rendering for one entry in the words of the
specification: a "logs" entry is not rendered.  (A kind outside the four is
given its body.) -/
def specPiece (E : Env) (m : Msg) : String :=
  if m.Type_ = "msg" then chatHead E m ++ m.Text
  else if m.Type_ = "notif" ∨ m.Type_ = "error" then m.Text ++ "\n"
  else if m.Type_ = "logs" then ""
  else m.Text

/-- The piece of the rendering for one entry where a "logs" entry, as any
entry that is neither chat, notice nor error, is rendered as its body. -/
def bodyPiece (E : Env) (m : Msg) : String :=
  if m.Type_ = "msg" then chatHead E m ++ m.Text
  else if m.Type_ = "notif" ∨ m.Type_ = "error" then m.Text ++ "\n"
  else m.Text

/-! ## Lemmas on maps -/

section maps
variable {κ ν : Type} [DecidableEq κ]

theorem mem_mapDelete {m : List (κ × ν)} {k : κ} {p : κ × ν} :
    p ∈ mapDelete m k ↔ p ∈ m ∧ p.1 ≠ k := by
  simp [mapDelete]

theorem mapDelete_cons (a : κ) (b : ν) (rest : List (κ × ν)) (k : κ) :
    mapDelete ((a, b) :: rest) k
      = if a = k then mapDelete rest k else (a, b) :: mapDelete rest k := by
  by_cases ha : a = k <;> simp [mapDelete, ha]

theorem mapGet_mapDelete_ne (m : List (κ × ν)) {k k' : κ} (z : ν) (h : k' ≠ k) :
    mapGet (mapDelete m k) k' z = mapGet m k' z := by
  induction m with
  | nil => rfl
  | cons p rest ih =>
    obtain ⟨a, b⟩ := p
    rw [mapDelete_cons]
    by_cases ha : a = k
    · have hne : ¬ a = k' := fun e => h (e.symm.trans ha)
      rw [if_pos ha, ih]
      simp [mapGet, hne]
    · rw [if_neg ha]
      by_cases hb : a = k'
      · simp [mapGet, hb]
      · simp [mapGet, hb, ih]

theorem mapGet_mapSet_self (m : List (κ × ν)) (k : κ) (v z : ν) :
    mapGet (mapSet m k v) k z = v := by
  simp [mapSet, mapGet]

theorem mapGet_mapSet_ne (m : List (κ × ν)) {k k' : κ} (v z : ν) (h : k' ≠ k) :
    mapGet (mapSet m k v) k' z = mapGet m k' z := by
  have : k ≠ k' := fun e => h e.symm
  simp [mapSet, mapGet, this, mapGet_mapDelete_ne m z h]

theorem mem_of_mapGet_ne (m : List (κ × ν)) (k : κ) (z : ν) (h : mapGet m k z ≠ z) :
    (k, mapGet m k z) ∈ m := by
  induction m with
  | nil => exact absurd rfl h
  | cons p rest ih =>
    obtain ⟨a, b⟩ := p
    by_cases ha : a = k
    · subst ha; simp [mapGet]
    · simp only [mapGet, ha, if_false] at h ⊢
      exact List.mem_cons_of_mem _ (ih h)

theorem mapGet_of_not_mem (m : List (κ × ν)) (k : κ) (z : ν) (h : ∀ v, (k, v) ∉ m) :
    mapGet m k z = z := by
  induction m with
  | nil => rfl
  | cons p rest ih =>
    obtain ⟨a, b⟩ := p
    by_cases ha : a = k
    · subst ha; exact absurd (List.mem_cons_self _ _) (h b)
    · simp only [mapGet, ha, if_false]
      exact ih (fun v hv => h v (List.mem_cons_of_mem _ hv))

theorem keys_mapDelete_nodup (m : List (κ × ν)) (k : κ) (h : (m.map Prod.fst).Nodup) :
    ((mapDelete m k).map Prod.fst).Nodup := by
  unfold mapDelete
  exact (List.Nodup.sublist (List.Sublist.map _ (List.filter_sublist _)) h)

theorem keys_mapSet_nodup (m : List (κ × ν)) (k : κ) (v : ν) (h : (m.map Prod.fst).Nodup) :
    ((mapSet m k v).map Prod.fst).Nodup := by
  unfold mapSet
  rw [List.map_cons, List.nodup_cons]
  refine ⟨?_, keys_mapDelete_nodup m k h⟩
  intro hk
  obtain ⟨p, hp, hpk⟩ := List.mem_map.1 hk
  exact (mem_mapDelete.1 hp).2 hpk

theorem length_mapDelete_le (m : List (κ × ν)) (k : κ) : (mapDelete m k).length ≤ m.length := by
  unfold mapDelete
  exact List.length_filter_le _ _

theorem length_mapSet_le (m : List (κ × ν)) (k : κ) (v : ν) :
    (mapSet m k v).length ≤ m.length + 1 := by
  unfold mapSet
  simpa using length_mapDelete_le m k

end maps

/-! ## What the operations do to the registry -/

theorem length_pos_of_ne_empty (x : String) (h : x ≠ "") : x.length > 0 := by
  rcases x with ⟨l⟩
  cases l with
  | nil => exact absurd rfl h
  | cons a t => simp [String.length]

theorem send_room (s : Server) (p : Payload) (h : s.msgch.length < chanCap) :
    send s p = Run.done (enqueue s p) := by
  simp [send, h]

theorem send_full (s : Server) (p : Payload) (h : ¬ s.msgch.length < chanCap) :
    send s p = Run.blocked s p := by
  simp [send, h]

theorem send_SameRegistry (s : Server) (p : Payload) : SameRegistry s (send s p).state := by
  unfold send
  split_ifs <;> exact ⟨rfl, rfl, rfl⟩

theorem SameRegistry_trans {s s' s'' : Server} (h : SameRegistry s s') (h' : SameRegistry s' s'') :
    SameRegistry s s'' :=
  ⟨h'.1.trans h.1, h'.2.1.trans h.2.1, h'.2.2.trans h.2.2⟩

theorem MsgToClient_SameRegistry (E : Env) (s : Server) (ty txt t : String) (conn : Conn) :
    SameRegistry s (MsgToClient E s ty txt t conn).state := by
  unfold MsgToClient
  simp only [timeNow, println, connWrite, LogError]
  split_ifs <;>
    first
    | exact ⟨rfl, rfl, rfl⟩
    | exact ⟨(send_SameRegistry _ _).1, (send_SameRegistry _ _).2.1, (send_SameRegistry _ _).2.2⟩

theorem andThen_state (r : Run) (next : Server → Run) (P : Server → Prop)
    (hb : ∀ s p, r = Run.blocked s p → P s) (hn : ∀ s, r = Run.done s → P (next s).state) :
    P (r.andThen next).state := by
  cases r with
  | done s => exact hn s rfl
  | blocked s p => exact hb s p rfl

theorem AddClient_accept_clients (E : Env) (s : Server) (conn : Conn) (name : String)
    (h1 : mapGet s.ExistingUsers name false = false) (h2 : s.clients.length < maxUsers) :
    (AddClient E s conn name).state.clients = mapSet s.clients conn name ∧
    (AddClient E s conn name).state.ExistingUsers = mapSet s.ExistingUsers name true := by
  unfold AddClient
  simp only [h1, h2, timeNow, Bool.not_false, decide_True, Bool.and_self, if_true]
  apply andThen_state _ _ (fun s' => s'.clients = mapSet s.clients conn name ∧
    s'.ExistingUsers = mapSet s.ExistingUsers name true)
  · intro s' p hr
    have h := MsgToClient_SameRegistry E
      { s with
        clients := mapSet s.clients conn name
        ExistingUsers := mapSet s.ExistingUsers name true
        clock := s.clock + 1 }
      "notif" (name ++ " has joined our chat...") (E.timeNow s.clock) conn
    rw [hr] at h
    exact ⟨h.1, h.2.1⟩
  · intro s' hr
    have h := MsgToClient_SameRegistry E
      { s with
        clients := mapSet s.clients conn name
        ExistingUsers := mapSet s.ExistingUsers name true
        clock := s.clock + 1 }
      "notif" (name ++ " has joined our chat...") (E.timeNow s.clock) conn
    rw [hr] at h
    split_ifs
    · have h' := MsgToClient_SameRegistry E { s' with clock := s'.clock + 1 } "logs"
        "Read the log file" (E.timeNow s'.clock) conn
      exact ⟨h'.1.trans h.1, h'.2.1.trans h.2.1⟩
    · exact ⟨h.1, h.2.1⟩

theorem AddClient_reject (E : Env) (s : Server) (conn : Conn) (name : String)
    (h : ¬ (mapGet s.ExistingUsers name false = false ∧ s.clients.length < maxUsers)) :
    ∃ s', AddClient E s conn name = Run.done s' ∧ s'.clients = s.clients ∧
      s'.ExistingUsers = s.ExistingUsers ∧ s'.msgch = s.msgch := by
  unfold AddClient
  have hc : (!(mapGet s.ExistingUsers name false) && decide (s.clients.length < maxUsers)) = false := by
    by_cases h1 : mapGet s.ExistingUsers name false = false
    · have h2 : ¬ s.clients.length < maxUsers := fun h2 => h ⟨h1, h2⟩
      simp [h1, h2]
    · simp at h1; simp [h1]
  simp only [hc, timeNow, Bool.false_eq_true, if_false]
  simp only [MsgToClient, timeNow, println, connWrite, if_true]
  split_ifs <;> exact ⟨_, rfl, rfl, rfl, rfl⟩

theorem foldl_broadcast (msg excluded : String) (l : List (Conn × String)) (acc : Server) :
    l.foldl (fun acc p => if p.2 ≠ excluded then connWrite acc p.1 msg else acc) acc
      = { acc with writes := acc.writes ++
            ((l.filter (fun p => decide (p.2 ≠ excluded))).map (fun p => (p.1, msg))) } := by
  induction l generalizing acc with
  | nil => simp
  | cons p rest ih =>
    rw [List.foldl_cons, ih]
    by_cases hp : p.2 = excluded
    · simp [hp]
    · simp [hp, connWrite, List.append_assoc]

theorem BroadcastMsg_eq (s : Server) (msg excluded : String) :
    BroadcastMsg s msg excluded
      = { s with writes := s.writes ++
            ((s.clients.filter (fun p => decide (p.2 ≠ excluded))).map (fun p => (p.1, msg))) } :=
  foldl_broadcast msg excluded s.clients s

theorem printLoopBody_clients (E : Env) (s : Server) (msg : Payload) :
    (printLoopBody E s msg).clients = s.clients ∧
    (printLoopBody E s msg).ExistingUsers = s.ExistingUsers ∧
    (printLoopBody E s msg).bufs = s.bufs := by
  unfold printLoopBody
  simp only [BroadcastMsg_eq, LogError, println]
  split_ifs <;> simp

theorem foldl_printLoopBody_clients (E : Env) (l : List Payload) (s : Server) :
    (l.foldl (printLoopBody E) s).clients = s.clients ∧
    (l.foldl (printLoopBody E) s).ExistingUsers = s.ExistingUsers ∧
    (l.foldl (printLoopBody E) s).bufs = s.bufs := by
  induction l generalizing s with
  | nil => exact ⟨rfl, rfl, rfl⟩
  | cons p rest ih =>
    rw [List.foldl_cons]
    exact ⟨(ih _).1.trans (printLoopBody_clients E s p).1,
      (ih _).2.1.trans (printLoopBody_clients E s p).2.1,
      (ih _).2.2.trans (printLoopBody_clients E s p).2.2⟩

theorem printLoop_clients (E : Env) (s : Server) :
    (printLoop E s).clients = s.clients ∧ (printLoop E s).ExistingUsers = s.ExistingUsers :=
  ⟨(foldl_printLoopBody_clients E s.msgch _).1, (foldl_printLoopBody_clients E s.msgch _).2.1⟩

theorem readLoopEOF_room (E : Env) (s : Server) (conn : Conn)
    (h : mapGet s.clients conn "" ≠ "") (room : s.msgch.length < chanCap) :
    readLoopEOF E s conn
      = Run.done (closeConnection
          (enqueue { s with clock := s.clock + 1 } (leftNotice E s conn))
          conn (mapGet s.clients conn "")) := by
  have hl := length_pos_of_ne_empty _ h
  unfold readLoopEOF
  simp only [timeNow, LogError, Bool.false_eq_true, if_false]
  have room' : ({ s with clock := s.clock + 1 } : Server).msgch.length < chanCap := room
  rw [if_pos hl, send_room _ _ room']
  rfl

theorem readLoopEOF_full (E : Env) (s : Server) (conn : Conn)
    (h : mapGet s.clients conn "" ≠ "") (full : ¬ s.msgch.length < chanCap) :
    readLoopEOF E s conn = Run.blocked { s with clock := s.clock + 1 } (leftNotice E s conn) := by
  have hl := length_pos_of_ne_empty _ h
  unfold readLoopEOF
  simp only [timeNow, LogError, Bool.false_eq_true, if_false]
  have full' : ¬ ({ s with clock := s.clock + 1 } : Server).msgch.length < chanCap := full
  rw [if_pos hl, send_full _ _ full']
  rfl

theorem readLoopEOF_unbound (E : Env) (s : Server) (conn : Conn)
    (h : mapGet s.clients conn "" = "") :
    readLoopEOF E s conn = Run.done { s with clock := s.clock + 1 } := by
  unfold readLoopEOF
  simp only [timeNow, LogError, Bool.false_eq_true, if_false, h]
  rfl


theorem RegistryInv_NewServer (addr : String) : RegistryInv (NewServer addr) :=
  ⟨by simp [NewServer], by simp [NewServer], by simp [NewServer]⟩

theorem RegistryInv_of_eq {s s' : Server} (hc : s'.clients = s.clients)
    (he : s'.ExistingUsers = s.ExistingUsers) (h : RegistryInv s) : RegistryInv s' :=
  ⟨by rw [hc]; exact h.keysNodup, by rw [hc, he]; exact h.seen, by rw [hc]; exact h.unique⟩

theorem RegistryInv_AddClient (E : Env) (s : Server) (conn : Conn) (name : String)
    (h : RegistryInv s) : RegistryInv (AddClient E s conn name).state := by
  by_cases hacc : mapGet s.ExistingUsers name false = false ∧ s.clients.length < maxUsers
  · obtain ⟨hc, he⟩ := AddClient_accept_clients E s conn name hacc.1 hacc.2
    have hnew : ∀ c, (c, name) ∈ s.clients → False := by
      intro c hc'
      have := h.seen c name hc'
      rw [hacc.1] at this
      exact Bool.false_ne_true this
    have hmem : ∀ c u, (c, u) ∈ mapSet s.clients conn name →
        (c = conn ∧ u = name) ∨ ((c, u) ∈ s.clients ∧ c ≠ conn) := by
      intro c u hcu
      rcases List.mem_cons.1 hcu with e | hin
      · left; exact ⟨congrArg Prod.fst e, congrArg Prod.snd e⟩
      · right; exact mem_mapDelete.1 hin
    refine ⟨?_, ?_, ?_⟩
    · rw [hc]; exact keys_mapSet_nodup _ _ _ h.keysNodup
    · intro c u hcu
      rw [hc] at hcu
      rw [he]
      by_cases hu : u = name
      · subst hu; exact mapGet_mapSet_self _ _ _ _
      · rw [mapGet_mapSet_ne _ _ _ hu]
        rcases hmem c u hcu with ⟨_, e⟩ | ⟨hin, _⟩
        · exact absurd e hu
        · exact h.seen c u hin
    · intro c1 c2 u h1 h2
      rw [hc] at h1 h2
      rcases hmem c1 u h1 with ⟨e1, u1⟩ | ⟨hin1, _⟩
      · rcases hmem c2 u h2 with ⟨e2, _⟩ | ⟨hin2, _⟩
        · rw [e1, e2]
        · exact (hnew c2 (u1 ▸ hin2)).elim
      · rcases hmem c2 u h2 with ⟨_, u2⟩ | ⟨hin2, _⟩
        · exact (hnew c1 (u2 ▸ hin1)).elim
        · exact h.unique c1 c2 u hin1 hin2
  · obtain ⟨s', hs', hc, he, _⟩ := AddClient_reject E s conn name hacc
    rw [hs']
    exact RegistryInv_of_eq hc he h

theorem RegistryInv_departure (s : Server) (conn : Conn) (h : RegistryInv s)
    (hb : mapGet s.clients conn "" ≠ "") :
    RegistryInv (closeConnection s conn (mapGet s.clients conn "")) := by
  have hconn : (conn, mapGet s.clients conn "") ∈ s.clients := mem_of_mapGet_ne _ _ _ hb
  refine ⟨?_, ?_, ?_⟩
  · exact keys_mapDelete_nodup _ _ h.keysNodup
  · intro c u hcu
    have hcu' : (c, u) ∈ s.clients ∧ c ≠ conn := mem_mapDelete.1 hcu
    have hu : u ≠ mapGet s.clients conn "" := by
      intro e
      exact hcu'.2 (h.unique c conn u hcu'.1 (e ▸ hconn))
    show mapGet (mapSet s.ExistingUsers (mapGet s.clients conn "") false) u false = true
    rw [mapGet_mapSet_ne _ _ _ hu]
    exact h.seen c u hcu'.1
  · intro c1 c2 u h1 h2
    exact h.unique c1 c2 u (mem_mapDelete.1 h1).1 (mem_mapDelete.1 h2).1

theorem RegistryInv_readLoopEOF (E : Env) (s : Server) (conn : Conn)
    (h : RegistryInv s) : RegistryInv (readLoopEOF E s conn).state := by
  by_cases hb : mapGet s.clients conn "" = ""
  · rw [readLoopEOF_unbound E s conn hb]
    exact @RegistryInv_of_eq s _ rfl rfl h
  · by_cases room : s.msgch.length < chanCap
    · rw [readLoopEOF_room E s conn hb room]
      have h' : RegistryInv (enqueue { s with clock := s.clock + 1 } (leftNotice E s conn)) :=
        @RegistryInv_of_eq s _ rfl rfl h
      exact RegistryInv_departure _ conn h' hb
    · rw [readLoopEOF_full E s conn hb room]
      exact @RegistryInv_of_eq s _ rfl rfl h

theorem RegistryInv_departGoesOn (s : Server) (conn : Conn) (h : RegistryInv s) :
    RegistryInv (departGoesOn s conn) := by
  unfold departGoesOn
  split_ifs with hl
  · refine RegistryInv_departure s conn h ?_
    intro e
    rw [e] at hl
    exact absurd hl (by decide)
  · exact h

theorem joinGoesOn_SameRegistry (E : Env) (s : Server) (conn : Conn) :
    SameRegistry s (joinGoesOn E s conn) := by
  unfold joinGoesOn
  split_ifs
  · have h := MsgToClient_SameRegistry E (timeNow E s).2 "logs" "Read the log file"
      (timeNow E s).1 conn
    exact ⟨h.1, h.2.1, h.2.2⟩
  · exact ⟨rfl, rfl, rfl⟩

theorem readLoopPayload_state (E : Env) (s : Server) (conn : Conn) (msgCount : Nat)
    (msg : String) :
    (readLoopPayload E s conn msgCount msg).1.state
      = (if msgCount = 0 then AddClient E (connRead s conn msg) conn msg
          else send (connRead s conn msg) (Payload.slice conn msg.length)).state := by
  unfold readLoopPayload
  dsimp only
  generalize (if msgCount = 0 then AddClient E (connRead s conn msg) conn msg
      else send (connRead s conn msg) (Payload.slice conn msg.length)) = r
  cases r <;> rfl

theorem RegistryInv_readLoopPayload (E : Env) (s : Server) (conn : Conn) (msgCount : Nat)
    (msg : String) (h : RegistryInv s) :
    RegistryInv (readLoopPayload E s conn msgCount msg).1.state := by
  have h' : RegistryInv (connRead s conn msg) := @RegistryInv_of_eq s _ rfl rfl h
  rw [readLoopPayload_state]
  split_ifs
  · exact RegistryInv_AddClient E _ conn msg h'
  · exact RegistryInv_of_eq (send_SameRegistry _ _).1 (send_SameRegistry _ _).2.1 h'

theorem RegistryInv_Step (E : Env) {s s' : Server} (hstep : Step E s s') (h : RegistryInv s) :
    RegistryInv s' := by
  cases hstep with
  | addClient conn name => exact RegistryInv_AddClient E s conn name h
  | read conn msgCount msg => exact RegistryInv_readLoopPayload E s conn msgCount msg h
  | depart conn => exact RegistryInv_readLoopEOF E s conn h
  | route => exact RegistryInv_of_eq (printLoop_clients E s).1 (printLoop_clients E s).2 h
  | sendGoesOn p room => exact @RegistryInv_of_eq s _ rfl rfl h
  | departGoesOn conn => exact RegistryInv_departGoesOn s conn h
  | joinGoesOn conn =>
    exact RegistryInv_of_eq (joinGoesOn_SameRegistry E s conn).1
      (joinGoesOn_SameRegistry E s conn).2.1 h

theorem RegistryInv_of_Reachable (E : Env) {s : Server} (h : Reachable E s) : RegistryInv s := by
  induction h with
  | init addr => exact RegistryInv_NewServer addr
  | step _ hstep ih => exact RegistryInv_Step E hstep ih

theorem AddClient_length_le (E : Env) (s : Server) (conn : Conn) (name : String)
    (h : s.clients.length ≤ maxUsers) :
    (AddClient E s conn name).state.clients.length ≤ maxUsers := by
  by_cases hacc : mapGet s.ExistingUsers name false = false ∧ s.clients.length < maxUsers
  · rw [(AddClient_accept_clients E s conn name hacc.1 hacc.2).1]
    exact le_trans (length_mapSet_le _ _ _) hacc.2
  · obtain ⟨s', hs', hc, _, _⟩ := AddClient_reject E s conn name hacc
    rw [hs']
    show s'.clients.length ≤ maxUsers
    rw [hc]
    exact h

theorem readLoopEOF_length_le (E : Env) (s : Server) (conn : Conn) :
    (readLoopEOF E s conn).state.clients.length ≤ s.clients.length := by
  by_cases hb : mapGet s.clients conn "" = ""
  · rw [readLoopEOF_unbound E s conn hb]
    exact le_refl _
  · by_cases room : s.msgch.length < chanCap
    · rw [readLoopEOF_room E s conn hb room]
      exact length_mapDelete_le _ _
    · rw [readLoopEOF_full E s conn hb room]
      exact le_refl _

theorem Step_length_le (E : Env) {s s' : Server} (hstep : Step E s s')
    (h : s.clients.length ≤ maxUsers) : s'.clients.length ≤ maxUsers := by
  cases hstep with
  | addClient conn name => exact AddClient_length_le E s conn name h
  | read conn msgCount msg =>
    rw [readLoopPayload_state]
    split_ifs
    · exact AddClient_length_le E (connRead s conn msg) conn msg h
    · rw [(send_SameRegistry _ _).1]
      exact h
  | depart conn => exact le_trans (readLoopEOF_length_le E s conn) h
  | route => rw [(printLoop_clients E s).1]; exact h
  | sendGoesOn p room => exact h
  | departGoesOn conn =>
    unfold departGoesOn
    split_ifs
    · exact le_trans (length_mapDelete_le _ _) h
    · exact h
  | joinGoesOn conn => rw [(joinGoesOn_SameRegistry E s conn).1]; exact h

theorem length_le_of_ReachableAnyClose (E : Env) {s : Server} (h : ReachableAnyClose E s) :
    s.clients.length ≤ maxUsers := by
  induction h with
  | init addr => simp [NewServer]
  | step _ hstep ih =>
    cases hstep with
    | step _ hs => exact Step_length_le E hs ih
    | close conn client => exact le_trans (length_mapDelete_le _ _) ih


theorem Colorize_Author (m : Msg) : (Colorize m).Author = m.Author := by
  unfold Colorize
  split_ifs <;> rfl

theorem Colorize_other (m : Msg) (h1 : m.Type_ ≠ "notif") (h2 : m.Type_ ≠ "error")
    (h3 : m.Type_ ≠ "msg") : Colorize m = m := by
  unfold Colorize
  simp [h1, h2, h3]

theorem AddClient_accept_room (E : Env) (s : Server) (conn : Conn) (name : String)
    (h1 : mapGet s.ExistingUsers name false = false) (h2 : s.clients.length < maxUsers)
    (room : s.msgch.length < chanCap) :
    AddClient E s conn name = Run.done
      (if s.MsgLog.length > 0 then
        { s with
          clients := mapSet s.clients conn name
          ExistingUsers := mapSet s.ExistingUsers name true
          msgch := s.msgch ++ [joinNotice E s name]
          msglogsFile := some (E.jsonMarshalLog s.MsgLog)
          writes := s.writes ++ [(conn, E.EncodeMsg ⟨"logs", name, "Read the log file",
            E.timeNow (s.clock + 3)⟩)]
          clock := s.clock + 4 }
      else
        { s with
          clients := mapSet s.clients conn name
          ExistingUsers := mapSet s.ExistingUsers name true
          msgch := s.msgch ++ [joinNotice E s name]
          clock := s.clock + 2 }) := by
  have hn : ("notif" : String) ≠ "error" := by decide
  have hn' : ("notif" : String) ≠ "logs" := by decide
  have hl : ("logs" : String) ≠ "error" := by decide
  have hc : Colorize ⟨"logs", name, "Read the log file", E.timeNow (s.clock + 3)⟩
      = ⟨"logs", name, "Read the log file", E.timeNow (s.clock + 3)⟩ :=
    Colorize_other _ (show ("logs" : String) ≠ "notif" by decide)
      (show ("logs" : String) ≠ "error" by decide) (show ("logs" : String) ≠ "msg" by decide)
  unfold AddClient
  simp only [h1, h2, timeNow, Bool.not_false, decide_True, Bool.and_self, if_true]
  simp only [MsgToClient, timeNow, send, room, enqueue, Run.andThen, connWrite, LogError, hn, hn',
    hl, if_false, if_true, mapGet_mapSet_self, Bool.false_eq_true, hc, joinNotice]
  split_ifs <;> rfl

theorem AddClient_accept_full (E : Env) (s : Server) (conn : Conn) (name : String)
    (h1 : mapGet s.ExistingUsers name false = false) (h2 : s.clients.length < maxUsers)
    (full : ¬ s.msgch.length < chanCap) :
    AddClient E s conn name = Run.blocked
      { s with
        clients := mapSet s.clients conn name
        ExistingUsers := mapSet s.ExistingUsers name true
        clock := s.clock + 2 }
      (joinNotice E s name) := by
  have hn : ("notif" : String) ≠ "error" := by decide
  have hn' : ("notif" : String) ≠ "logs" := by decide
  unfold AddClient
  simp only [h1, h2, timeNow, Bool.not_false, decide_True, Bool.and_self, if_true]
  simp only [MsgToClient, timeNow, send, full, Run.andThen, hn, hn',
    if_false, mapGet_mapSet_self, joinNotice]

theorem AddClient_at_capacity (E : Env) (s : Server) (conn : Conn) (name : String)
    (h1 : mapGet s.ExistingUsers name false = false) (h2 : s.clients.length = maxUsers) :
    AddClient E s conn name = Run.done s := by
  unfold AddClient
  have h3 : ¬ s.clients.length < maxUsers := by omega
  have h4 : ¬ s.clients.length = 8 := by rw [h2]; decide
  simp [h1, h3, h4]

theorem AddClient_duplicate (E : Env) (s : Server) (conn : Conn) (name : String)
    (h1 : mapGet s.ExistingUsers name false = true) :
    AddClient E s conn name = Run.done
      { s with
        console := s.console ++ [Red ++ "That username already exists." ++ ColorAnsiEnd]
        writes := s.writes ++ [(conn, E.EncodeMsg (Colorize ⟨"error", mapGet s.clients conn "",
          "That username already exists.", E.timeNow (s.clock + 1)⟩))]
        clock := s.clock + 2 } := by
  unfold AddClient
  simp only [h1, timeNow, Bool.not_true, Bool.false_and, Bool.false_eq_true, if_false, if_true]
  simp only [MsgToClient, timeNow, println, connWrite, if_true]
  simp [Colorize]

theorem Reachable_registerAll (E : Env) (l : List (Conn × String)) (s : Server)
    (h : Reachable E s) : Reachable E (registerAll E l s) := by
  induction l generalizing s with
  | nil => exact h
  | cons p rest ih =>
    obtain ⟨conn, name⟩ := p
    exact ih _ (Reachable.step h (Step.addClient s conn name))

theorem Reachable_aliceBobServer : Reachable sampleEnv aliceBobServer :=
  Reachable.step (Reachable.step (Reachable.init _) (Step.addClient _ 1 "alice"))
    (Step.addClient _ 2 "bob")

theorem ReachableAnyClose_of_Reachable (E : Env) {s : Server} (h : Reachable E s) :
    ReachableAnyClose E s := by
  induction h with
  | init addr => exact ReachableAnyClose.init addr
  | step _ hstep ih => exact ReachableAnyClose.step ih (StepAnyClose.step _ _ hstep)

theorem length_pos_of_append_left (a b : String) (h : a.length > 0) : (a ++ b).length > 0 := by
  rw [String.length_append]; omega

theorem Orange_length : Orange.length > 0 := by decide
theorem Red_length : Red.length > 0 := by decide
theorem Blue_length : Blue.length > 0 := by decide

theorem Colorize_Text_pos (m : Msg)
    (h : m.Type_ = "msg" ∨ m.Type_ = "notif" ∨ m.Type_ = "error") :
    (Colorize m).Text.length > 0 := by
  unfold Colorize
  rcases h with h | h | h
  · have h1 : m.Type_ ≠ "notif" := by rw [h]; decide
    have h2 : m.Type_ ≠ "error" := by rw [h]; decide
    simp only [h1, h2, h, if_false, if_true]
    simp only [String.append_assoc]
    exact length_pos_of_append_left _ _ Blue_length
  · simp only [h, if_true]
    simp only [String.append_assoc]
    exact length_pos_of_append_left _ _ Orange_length
  · have h1 : m.Type_ ≠ "notif" := by rw [h]; decide
    simp only [h1, h, if_false, if_true]
    simp only [String.append_assoc]
    exact length_pos_of_append_left _ _ Red_length

theorem payloadBytes_congr {s s' : Server} (h : s'.bufs = s.bufs) (p : Payload) :
    payloadBytes s' p = payloadBytes s p := by
  cases p with
  | bytes b => rfl
  | slice conn n => simp [payloadBytes, h]

theorem printLoopBody_MsgLog (E : Env) (s : Server) (p : Payload) :
    (printLoopBody E s p).MsgLog
      = s.MsgLog ++ [Colorize (E.jsonUnmarshal (payloadBytes s p)).1] := by
  unfold printLoopBody
  simp only [BroadcastMsg_eq, LogError, println]
  split_ifs <;> rfl

theorem printLoopBody_loggedErrors (E : Env) (s : Server) (p : Payload) :
    (printLoopBody E s p).loggedErrors
      = s.loggedErrors + (if (E.jsonUnmarshal (payloadBytes s p)).2 then 0 else 1) := by
  unfold printLoopBody
  simp only [BroadcastMsg_eq, LogError, println]
  cases (E.jsonUnmarshal (payloadBytes s p)).2 <;> simp <;> split_ifs <;> rfl

theorem foldl_printLoopBody_MsgLog (E : Env) (l : List Payload) (s : Server) :
    (l.foldl (printLoopBody E) s).MsgLog
      = s.MsgLog ++ l.map (fun p => Colorize (E.jsonUnmarshal (payloadBytes s p)).1) := by
  induction l generalizing s with
  | nil => simp
  | cons p rest ih =>
    rw [List.foldl_cons, ih, printLoopBody_MsgLog]
    have hb := (printLoopBody_clients E s p).2.2
    simp [List.append_assoc, payloadBytes_congr hb]

theorem foldl_printLoopBody_loggedErrors (E : Env) (l : List Payload) (s : Server) :
    (l.foldl (printLoopBody E) s).loggedErrors
      = s.loggedErrors
        + (l.filter (fun p => !(E.jsonUnmarshal (payloadBytes s p)).2)).length := by
  induction l generalizing s with
  | nil => simp
  | cons p rest ih =>
    rw [List.foldl_cons, ih, printLoopBody_loggedErrors]
    have hb := (printLoopBody_clients E s p).2.2
    simp only [payloadBytes_congr hb, List.filter_cons]
    rcases Bool.eq_false_or_eq_true (E.jsonUnmarshal (payloadBytes s p)).2 with h | h
    · simp [h]
    · simp [h]
      omega

theorem printLoopBody_writes_pos (E : Env) (s : Server) (p : Payload)
    (h : (Colorize (E.jsonUnmarshal (payloadBytes s p)).1).Text.length > 0) :
    (printLoopBody E s p).writes
      = s.writes ++ (s.clients.filter
          (fun q => decide (q.2 ≠ (E.jsonUnmarshal (payloadBytes s p)).1.Author))).map
          (fun q => (q.1, E.EncodeMsg (Colorize (E.jsonUnmarshal (payloadBytes s p)).1))) := by
  unfold printLoopBody
  simp only [BroadcastMsg_eq, LogError, println, Colorize_Author]
  rw [if_pos h]
  split_ifs <;> rfl

theorem printLoopBody_writes_zero (E : Env) (s : Server) (p : Payload)
    (h : (Colorize (E.jsonUnmarshal (payloadBytes s p)).1).Text.length = 0) :
    (printLoopBody E s p).writes = s.writes := by
  unfold printLoopBody
  have h' : ¬ (Colorize (E.jsonUnmarshal (payloadBytes s p)).1).Text.length > 0 := by omega
  simp only [LogError]
  rw [if_neg h']
  split_ifs <;> rfl

theorem mem_writtenTo_iff (s s' : Server) (author msg : String)
    (h : s'.writes = s.writes ++ (s.clients.filter (fun p => decide (p.2 ≠ author))).map
          (fun p => (p.1, msg))) (c : Conn) :
    c ∈ writtenTo s s' ↔ ∃ u, (c, u) ∈ s.clients ∧ u ≠ author := by
  unfold writtenTo
  rw [h, List.drop_left]
  simp only [List.map_map, List.mem_map, List.mem_filter, decide_eq_true_eq, Function.comp]
  constructor
  · rintro ⟨⟨c', u⟩, ⟨hin, hne⟩, rfl⟩
    exact ⟨u, hin, hne⟩
  · rintro ⟨u, hin, hne⟩
    exact ⟨(c, u), ⟨hin, hne⟩, rfl⟩

theorem foldl_append_eq (l : List String) (acc : String) :
    l.foldl (fun r x => r ++ x) acc = acc ++ String.join l := by
  unfold String.join
  induction l generalizing acc with
  | nil => simp
  | cons x rest ih =>
    rw [List.foldl_cons, List.foldl_cons, ih (acc ++ x), ih ("" ++ x)]
    simp [String.append_assoc]

theorem join_cons (x : String) (l : List String) : String.join (x :: l) = x ++ String.join l := by
  have h := foldl_append_eq (x :: l) ""
  rw [List.foldl_cons, foldl_append_eq] at h
  simpa [String.append_assoc] using h.symm

theorem render_step (E : Env) (m : Msg) (acc : String) :
    (let txt := if m.Type_ = "msg" then acc ++ (Blue ++ E.UserMsgDate m.Author m.Date ++ ColorAnsiEnd) else acc
     let txt := txt ++ m.Text
     if m.Type_ = "error" ∨ m.Type_ = "notif" then txt ++ "\n" else txt)
      = acc ++ bodyPiece E m := by
  unfold bodyPiece chatHead
  by_cases h1 : m.Type_ = "msg"
  · have h2 : ¬ (("msg" : String) = "error" ∨ ("msg" : String) = "notif") := by decide
    have h3 : ¬ (("msg" : String) = "notif" ∨ ("msg" : String) = "error") := by decide
    simp only [h1, h2, h3, if_true, if_false, String.append_assoc]
  · by_cases h2 : m.Type_ = "error" ∨ m.Type_ = "notif"
    · have h3 : m.Type_ = "notif" ∨ m.Type_ = "error" := h2.symm
      simp only [h1, h2, h3, if_true, if_false, String.append_assoc]
    · have h3 : ¬ (m.Type_ = "notif" ∨ m.Type_ = "error") := fun h => h2 h.symm
      simp only [h1, h2, h3, if_false]

theorem foldl_render (E : Env) (logs : List Msg) (acc : String) :
    logs.foldl
      (fun txt msg =>
        let txt := if msg.Type_ = "msg" then txt ++ (Blue ++ E.UserMsgDate msg.Author msg.Date ++ ColorAnsiEnd) else txt
        let txt := txt ++ msg.Text
        if msg.Type_ = "error" ∨ msg.Type_ = "notif" then txt ++ "\n" else txt)
      acc
      = acc ++ String.join (logs.map (bodyPiece E)) := by
  induction logs generalizing acc with
  | nil => simp [String.join]
  | cons m rest ih =>
    rw [List.foldl_cons, ih, List.map_cons, join_cons,
      ← String.append_assoc acc (bodyPiece E m)]
    exact congrArg (fun x => x ++ String.join (rest.map (bodyPiece E))) (render_step E m acc)


/-! ## The registry: uniqueness and capacity -/

/-- C1.  In every state reached from the start of the program by
registrations `AddClient(conn, name)`, departures as `readLoop` performs them
at end of stream, and runs of the router, the registry has one entry per
connection and no two connections are bound to the same username. -/
theorem unique_usernames (E : Env) (s : Server) (h : Reachable E s) :
    (s.clients.map Prod.fst).Nodup ∧
    ∀ c1 c2 u, (c1, u) ∈ s.clients → (c2, u) ∈ s.clients → c1 = c2 :=
  ⟨(RegistryInv_of_Reachable E h).keysNodup, (RegistryInv_of_Reachable E h).unique⟩

/-- The uniqueness of usernames on the server where "alice" and "bob" have registered. -/
theorem unique_usernames_witness :
    aliceBobServer.clients = [(2, "bob"), (1, "alice")] ∧
    ((aliceBobServer.clients.map Prod.fst).Nodup ∧
      ∀ c1 c2 u, (c1, u) ∈ aliceBobServer.clients → (c2, u) ∈ aliceBobServer.clients → c1 = c2) :=
  ⟨by decide, unique_usernames sampleEnv aliceBobServer Reachable_aliceBobServer⟩

/-- C4.  In every state reached from the start of the program by
registrations, calls of `closeConnection` on any connection and name,
departures and runs of the router, at most `maxUsers` connections are
registered; and a call of `AddClient` whose acceptance test fails returns
(it sends nothing on the channel) and leaves `s.clients` as it was. -/
theorem capacity_bound (E : Env) (s : Server) (h : ReachableAnyClose E s) :
    s.clients.length ≤ maxUsers ∧
    ∀ conn name,
      (!(mapGet s.ExistingUsers name false) && decide (s.clients.length < maxUsers)) = false →
      (AddClient E s conn name).state.clients = s.clients ∧
      AddClient E s conn name = Run.done (AddClient E s conn name).state := by
  refine ⟨length_le_of_ReachableAnyClose E h, ?_⟩
  intro conn name hrej
  have hn : ¬ (mapGet s.ExistingUsers name false = false ∧ s.clients.length < maxUsers) := by
    rintro ⟨h1, h2⟩
    simp [h1, h2] at hrej
  obtain ⟨s', hs', hc, _, _⟩ := AddClient_reject E s conn name hn
  rw [hs']
  exact ⟨hc, rfl⟩

/-- The capacity bound on the server where ten connections have registered,
and an eleventh registration there. -/
theorem capacity_bound_witness :
    fullServer.clients.length = 10 ∧ maxUsers = 10 ∧
    (fullServer.clients.length ≤ maxUsers ∧
      ((AddClient sampleEnv fullServer 11 "kate").state.clients = fullServer.clients ∧
        AddClient sampleEnv fullServer 11 "kate"
          = Run.done (AddClient sampleEnv fullServer 11 "kate").state)) :=
  ⟨by decide, rfl,
    (capacity_bound sampleEnv fullServer
      (ReachableAnyClose_of_Reachable sampleEnv
        (Reachable_registerAll sampleEnv tenUsers _ (Reachable.init _)))).1,
    (capacity_bound sampleEnv fullServer
      (ReachableAnyClose_of_Reachable sampleEnv
        (Reachable_registerAll sampleEnv tenUsers _ (Reachable.init _)))).2 11 "kate" (by decide)⟩

theorem length_mapDelete_lt {κ ν : Type} [DecidableEq κ] (m : List (κ × ν)) (k : κ) (v : ν)
    (h : (k, v) ∈ m) : (mapDelete m k).length < m.length := by
  unfold mapDelete
  exact List.length_filter_lt_length_iff_exists.2 ⟨(k, v), h, by simp⟩

theorem mapGet_closeConnection (s : Server) (conn : Conn) (client : String) :
    mapGet (closeConnection s conn client).ExistingUsers client false = false :=
  mapGet_mapSet_self _ _ _ _

/-! ## Departure and the username -/

/-- C2, as stated, fails: "alice" registers on connection 1 and departs
(`closeConnection(1, "alice")`); a registration of "alice" on connection 2 is
then accepted, and nothing at all is written to connection 2. -/
theorem seen_forever_counterexample :
    aliceServer.clients = [(1, "alice")] ∧
    (AddClient sampleEnv (closeConnection aliceServer 1 "alice") 2 "alice").state.clients
      = [(2, "alice")] ∧
    (AddClient sampleEnv (closeConnection aliceServer 1 "alice") 2 "alice").state.writes = [] := by
  decide

/-- C2, amended.  A departure frees the username: after
`closeConnection(c1, u)` on a registry of at most `maxUsers` connections where
`c1` was bound to `u`, the name `u` is marked `false` in `ExistingUsers`, and
`AddClient(c2, u)` is accepted: `c2` is bound to `u`, nothing is printed and
no error message is written.  The join notice of `u` is sent on the channel:
with fewer than `chanCap` payloads pending it is queued, and the only write is
the "logs" message sent to `c2` when the log is not empty; with `chanCap`
payloads pending `AddClient` blocks in that send, nothing queued and nothing
written. -/
theorem departure_frees_username (E : Env) (s : Server) (c1 c2 : Conn) (u : String)
    (hreg : (c1, u) ∈ s.clients) (hlen : s.clients.length ≤ maxUsers) :
    mapGet (closeConnection s c1 u).ExistingUsers u false = false ∧
    (AddClient E (closeConnection s c1 u) c2 u).state.clients
      = mapSet (mapDelete s.clients c1) c2 u ∧
    mapGet (AddClient E (closeConnection s c1 u) c2 u).state.clients c2 "" = u ∧
    (AddClient E (closeConnection s c1 u) c2 u).state.console = s.console ∧
    (s.msgch.length < chanCap →
      ∃ s', AddClient E (closeConnection s c1 u) c2 u = Run.done s' ∧
        s'.msgch = s.msgch ++ [joinNotice E s u] ∧
        s'.writes = s.writes ++ (if s.MsgLog.length > 0
          then [(c2, E.EncodeMsg ⟨"logs", u, "Read the log file", E.timeNow (s.clock + 3)⟩)]
          else [])) ∧
    (¬ s.msgch.length < chanCap →
      ∃ s', AddClient E (closeConnection s c1 u) c2 u = Run.blocked s' (joinNotice E s u) ∧
        s'.msgch = s.msgch ∧ s'.writes = s.writes) := by
  have hfree := mapGet_closeConnection s c1 u
  have hcap : (closeConnection s c1 u).clients.length < maxUsers :=
    lt_of_lt_of_le (length_mapDelete_lt s.clients c1 u hreg) hlen
  refine ⟨hfree, ?_⟩
  by_cases room : s.msgch.length < chanCap
  · have room' : (closeConnection s c1 u).msgch.length < chanCap := room
    rw [AddClient_accept_room E _ c2 u hfree hcap room']
    by_cases hlog : s.MsgLog.length > 0
    · have hlog' : (closeConnection s c1 u).MsgLog.length > 0 := hlog
      rw [if_pos hlog', if_pos hlog]
      exact ⟨rfl, mapGet_mapSet_self _ _ _ _, rfl, fun _ => ⟨_, rfl, rfl, rfl⟩,
        fun h => absurd room h⟩
    · have hlog' : ¬ (closeConnection s c1 u).MsgLog.length > 0 := hlog
      rw [if_neg hlog', if_neg hlog]
      exact ⟨rfl, mapGet_mapSet_self _ _ _ _, rfl,
        fun _ => ⟨_, rfl, rfl, by simp [Run.state, closeConnection, connClose]⟩,
        fun h => absurd room h⟩
  · have room' : ¬ (closeConnection s c1 u).msgch.length < chanCap := room
    rw [AddClient_accept_full E _ c2 u hfree hcap room']
    exact ⟨rfl, mapGet_mapSet_self _ _ _ _, rfl, fun h => absurd h room,
      fun _ => ⟨_, rfl, rfl, rfl⟩⟩

/-- The reuse of "alice" by connection 2 after connection 1 has left, with
room in the channel; and the reuse of "ana" by connection 11 after connection
1 has left the server of ten, the channel full. -/
theorem departure_frees_username_witness :
    ((1, "alice") ∈ aliceServer.clients ∧ aliceServer.msgch.length = 1 ∧
      ∃ s', AddClient sampleEnv (closeConnection aliceServer 1 "alice") 2 "alice" = Run.done s' ∧
        s'.msgch = aliceServer.msgch ++ [joinNotice sampleEnv aliceServer "alice"] ∧
        s'.writes = aliceServer.writes ++ (if aliceServer.MsgLog.length > 0
          then [(2, sampleEnv.EncodeMsg ⟨"logs", "alice", "Read the log file",
            sampleEnv.timeNow (aliceServer.clock + 3)⟩)]
          else [])) ∧
    ((1, "ana") ∈ fullServer.clients ∧ fullServer.msgch.length = 10 ∧
      ∃ s', AddClient sampleEnv (closeConnection fullServer 1 "ana") 11 "ana"
          = Run.blocked s' (joinNotice sampleEnv fullServer "ana") ∧
        s'.msgch = fullServer.msgch ∧ s'.writes = fullServer.writes) :=
  ⟨⟨by decide, by decide,
      (departure_frees_username sampleEnv aliceServer 1 2 "alice"
        (by decide) (by decide)).2.2.2.2.1 (by decide)⟩,
    ⟨by decide, by decide,
      (departure_frees_username sampleEnv fullServer 1 11 "ana"
        (by decide) (by decide)).2.2.2.2.2 (by decide)⟩⟩

/-! ## Registration at capacity -/

/-- C3 on the code: with ten connections registered (`maxUsers`) and "kate"
never seen, `AddClient(11, "kate")` returns having changed nothing at all: no
error message is written to connection 11 (the error branch tests
`len(s.clients) == 8`). -/
theorem eleventh_registration_is_silent :
    Reachable sampleEnv fullServer ∧
    fullServer.clients.length = maxUsers ∧
    mapGet fullServer.ExistingUsers "kate" false = false ∧
    AddClient sampleEnv fullServer 11 "kate" = Run.done fullServer ∧
    (AddClient sampleEnv fullServer 11 "kate").state.writes = [] :=
  ⟨Reachable_registerAll sampleEnv tenUsers _ (Reachable.init _), by decide, by decide,
    AddClient_at_capacity sampleEnv fullServer 11 "kate" (by decide) (by decide), by decide⟩

/-! ## The reader -/

theorem readLoopPayload_later (E : Env) (s : Server) (conn : Conn) (n : Nat) (msg : String) :
    (s.msgch.length < chanCap →
      readLoopPayload E s conn (n + 1) msg
        = (Run.done (enqueue (connRead s conn msg) (Payload.slice conn msg.length)), n + 2)) ∧
    (¬ s.msgch.length < chanCap →
      readLoopPayload E s conn (n + 1) msg
        = (Run.blocked (connRead s conn msg) (Payload.slice conn msg.length), n + 1)) := by
  constructor
  · intro room
    have room' : (connRead s conn msg).msgch.length < chanCap := room
    simp [readLoopPayload, send_room _ _ room']
  · intro full
    have full' : ¬ (connRead s conn msg).msgch.length < chanCap := full
    simp [readLoopPayload, send_full _ _ full']

/-- C5, as stated, fails: "alice" is registered on connection 1; connection 2
sends "alice" first and is rejected, yet its message count becomes 1, and its
next payload "bob" is queued for the router (as a slice of the read buffer,
whose bytes are "bob") and not given to `AddClient`, which would have
registered it. -/
theorem rejected_reader_counterexample :
    mapGet aliceServer.ExistingUsers "alice" false = true ∧
    (readLoopPayload sampleEnv aliceServer 2 0 "alice").1.state.clients = [(1, "alice")] ∧
    (readLoopPayload sampleEnv aliceServer 2 0 "alice").2 = 1 ∧
    (readLoop sampleEnv aliceServer 2
        [ReadEvent.data "alice", ReadEvent.data "bob"]).1.state.clients = [(1, "alice")] ∧
    (readLoop sampleEnv aliceServer 2 [ReadEvent.data "alice", ReadEvent.data "bob"]).1.state.msgch
      = (readLoopPayload sampleEnv aliceServer 2 0 "alice").1.state.msgch
          ++ [Payload.slice 2 3] ∧
    payloadBytes
        (readLoop sampleEnv aliceServer 2 [ReadEvent.data "alice", ReadEvent.data "bob"]).1.state
        (Payload.slice 2 3) = "bob" ∧
    (AddClient sampleEnv
        (connRead (readLoopPayload sampleEnv aliceServer 2 0 "alice").1.state 2 "bob")
        2 "bob").state.clients = [(2, "bob"), (1, "alice")] := by
  decide

/-- C5, amended.  The reader counts every payload it has handled, whether
`AddClient` accepted the first one or rejected it.  Once `AddClient` has
returned for the first payload the message count is 1; every later payload is
sent on the channel as the slice `buf[:n]` of the read buffer and is not given
to `AddClient`, so that `s.clients` stays as it was: with fewer than `chanCap`
payloads pending it is queued and the count advances, and otherwise the reader
blocks in the send.  A call of `AddClient` whose acceptance test fails always
returns. -/
theorem reader_counts_every_payload (E : Env) (s s1 : Server) (conn : Conn)
    (first next : String)
    (hret : AddClient E (connRead s conn first) conn first = Run.done s1) :
    readLoopPayload E s conn 0 first = (Run.done s1, 1) ∧
    (∀ n, (readLoopPayload E s1 conn (n + 1) next).1
        = send (connRead s1 conn next) (Payload.slice conn next.length)) ∧
    (∀ n, (readLoopPayload E s1 conn (n + 1) next).1.state.clients = s1.clients) ∧
    (s1.msgch.length < chanCap → ∀ n,
      readLoopPayload E s1 conn (n + 1) next
        = (Run.done (enqueue (connRead s1 conn next) (Payload.slice conn next.length)), n + 2)) ∧
    (¬ s1.msgch.length < chanCap → ∀ n,
      readLoopPayload E s1 conn (n + 1) next
        = (Run.blocked (connRead s1 conn next) (Payload.slice conn next.length), n + 1)) ∧
    ((!(mapGet s.ExistingUsers first false) && decide (s.clients.length < maxUsers)) = false →
      ∃ s', AddClient E (connRead s conn first) conn first = Run.done s' ∧
        s'.clients = s.clients) := by
  refine ⟨?_, ?_, ?_, ?_, ?_, ?_⟩
  · simp [readLoopPayload, hret]
  · intro n
    by_cases room : s1.msgch.length < chanCap
    · have room' : (connRead s1 conn next).msgch.length < chanCap := room
      rw [((readLoopPayload_later E s1 conn n next).1 room), send_room _ _ room']
    · have full' : ¬ (connRead s1 conn next).msgch.length < chanCap := room
      rw [((readLoopPayload_later E s1 conn n next).2 room), send_full _ _ full']
  · intro n
    by_cases room : s1.msgch.length < chanCap
    · rw [((readLoopPayload_later E s1 conn n next).1 room)]; rfl
    · rw [((readLoopPayload_later E s1 conn n next).2 room)]; rfl
  · intro room n
    exact (readLoopPayload_later E s1 conn n next).1 room
  · intro full n
    exact (readLoopPayload_later E s1 conn n next).2 full
  · intro hrej
    have hn : ¬ (mapGet (connRead s conn first).ExistingUsers first false = false ∧
        (connRead s conn first).clients.length < maxUsers) := by
      rintro ⟨h1, h2⟩
      have h1' : mapGet s.ExistingUsers first false = false := h1
      have h2' : s.clients.length < maxUsers := h2
      simp [h1', h2'] at hrej
    obtain ⟨s', hs', hc, _, _⟩ := AddClient_reject E (connRead s conn first) conn first hn
    exact ⟨s', hs', hc⟩

/-- The reader of connection 2 on the server where "alice" is registered: the
rejected first payload "alice", then "AAAA" and "BB", both queued as slices of
the one read buffer. -/
theorem reader_counts_every_payload_witness :
    readLoopPayload sampleEnv aliceServer 2 0 "alice"
      = (Run.done (readLoopPayload sampleEnv aliceServer 2 0 "alice").1.state, 1) ∧
    readLoopPayload sampleEnv (readLoopPayload sampleEnv aliceServer 2 0 "alice").1.state 2 1 "AAAA"
      = (Run.done (enqueue
          (connRead (readLoopPayload sampleEnv aliceServer 2 0 "alice").1.state 2 "AAAA")
          (Payload.slice 2 "AAAA".length)), 2) ∧
    (∃ s', AddClient sampleEnv (connRead aliceServer 2 "alice") 2 "alice" = Run.done s' ∧
      s'.clients = aliceServer.clients) ∧
    (readLoop sampleEnv aliceServer 2
        [ReadEvent.data "alice", ReadEvent.data "AAAA", ReadEvent.data "BB"]).1.state.msgch
      = aliceServer.msgch ++ [Payload.slice 2 4, Payload.slice 2 2] ∧
    (readLoop sampleEnv aliceServer 2
        [ReadEvent.data "alice", ReadEvent.data "AAAA", ReadEvent.data "BB"]).1.state.bufs
      = [(2, "BBAAe")] :=
  ⟨(reader_counts_every_payload sampleEnv aliceServer
      (readLoopPayload sampleEnv aliceServer 2 0 "alice").1.state 2 "alice" "AAAA"
      (by decide)).1,
    (reader_counts_every_payload sampleEnv aliceServer
      (readLoopPayload sampleEnv aliceServer 2 0 "alice").1.state 2 "alice" "AAAA"
      (by decide)).2.2.2.1 (by decide) 0,
    (reader_counts_every_payload sampleEnv aliceServer
      (readLoopPayload sampleEnv aliceServer 2 0 "alice").1.state 2 "alice" "AAAA"
      (by decide)).2.2.2.2.2 (by decide),
    by decide, by decide⟩

/-! ## The router -/

/-- C6, as stated, fails: the payload "hello" does not decode, and the router
appends an entry (the zero `Msg`) to `MsgLog` all the same. -/
theorem decode_failure_counterexample :
    sampleEnv.jsonUnmarshal "hello" = (Msg.zero, false) ∧
    (printLoopBody sampleEnv aliceBobServer (Payload.bytes "hello")).MsgLog
      = aliceBobServer.MsgLog ++ [Msg.zero] ∧
    (printLoopBody sampleEnv aliceBobServer (Payload.bytes "hello")).MsgLog
      ≠ aliceBobServer.MsgLog := by
  decide

/-- C6, amended.  The router records a payload that fails to decode and does
not skip it.  For every payload, decoded or not, `printLoop` appends one entry
to `MsgLog`, the decorated value that `json.Unmarshal` left in `newMSG`; when
the decoding fails the failure is given to `LogError` (one more error is
recorded), and when it succeeds none is; when the value left in `newMSG` is
the zero `Msg` the entry is the zero `Msg` and nothing is written to any
connection.  After a run of `printLoop`, `MsgLog` has grown by one entry per
payload taken from the channel, in order, and one error has been recorded per
payload that failed to decode. -/
theorem router_logs_every_payload (E : Env) (s : Server) :
    (∀ p, (printLoopBody E s p).MsgLog
        = s.MsgLog ++ [Colorize (E.jsonUnmarshal (payloadBytes s p)).1]) ∧
    (∀ p, (E.jsonUnmarshal (payloadBytes s p)).2 = false →
        (printLoopBody E s p).loggedErrors = s.loggedErrors + 1) ∧
    (∀ p, (E.jsonUnmarshal (payloadBytes s p)).2 = true →
        (printLoopBody E s p).loggedErrors = s.loggedErrors) ∧
    (∀ p, (E.jsonUnmarshal (payloadBytes s p)).1 = Msg.zero →
        (printLoopBody E s p).MsgLog = s.MsgLog ++ [Msg.zero] ∧
        (printLoopBody E s p).writes = s.writes) ∧
    (printLoop E s).MsgLog
      = s.MsgLog ++ s.msgch.map (fun p => Colorize (E.jsonUnmarshal (payloadBytes s p)).1) ∧
    (printLoop E s).loggedErrors
      = s.loggedErrors
        + (s.msgch.filter (fun p => !(E.jsonUnmarshal (payloadBytes s p)).2)).length := by
  refine ⟨printLoopBody_MsgLog E s, ?_, ?_, ?_, ?_, ?_⟩
  · intro p hp
    rw [printLoopBody_loggedErrors, hp]
    rfl
  · intro p hp
    rw [printLoopBody_loggedErrors, hp]
    rfl
  · intro p hz
    have hc : Colorize (E.jsonUnmarshal (payloadBytes s p)).1 = Msg.zero := by rw [hz]; decide
    refine ⟨by rw [printLoopBody_MsgLog, hc], printLoopBody_writes_zero E s p ?_⟩
    rw [hc]; decide
  · exact foldl_printLoopBody_MsgLog E s.msgch { s with msgch := [] }
  · exact foldl_printLoopBody_loggedErrors E s.msgch { s with msgch := [] }

/-- The router on the payload "hello", which does not decode, and on a chat
message, which does. -/
theorem router_logs_every_payload_witness :
    (sampleEnv.jsonUnmarshal "hello") = (Msg.zero, false) ∧
    (printLoopBody sampleEnv aliceBobServer (Payload.bytes "hello")).loggedErrors
      = aliceBobServer.loggedErrors + 1 ∧
    (printLoopBody sampleEnv aliceBobServer (Payload.bytes chatPayload)).loggedErrors
      = aliceBobServer.loggedErrors ∧
    ((printLoopBody sampleEnv aliceBobServer (Payload.bytes "hello")).MsgLog
        = aliceBobServer.MsgLog ++ [Msg.zero] ∧
      (printLoopBody sampleEnv aliceBobServer (Payload.bytes "hello")).writes
        = aliceBobServer.writes) :=
  ⟨by decide,
    (router_logs_every_payload sampleEnv aliceBobServer).2.1 (Payload.bytes "hello") (by decide),
    (router_logs_every_payload sampleEnv aliceBobServer).2.2.1 (Payload.bytes chatPayload)
      (by decide),
    (router_logs_every_payload sampleEnv aliceBobServer).2.2.2.1 (Payload.bytes "hello")
      (by decide)⟩

/-- C7, as stated, fails: with "alice" on connection 1 and "bob" on connection
2, an error message of author "alice" is decoded by the router and written to
connection 2 only, not to the connection of its author. -/
theorem error_routing_counterexample :
    sampleEnv.jsonUnmarshal errorPayload
      = (⟨"error", "alice", "boom", "2024-05-01 10:00:20"⟩, true) ∧
    aliceBobServer.clients = [(2, "bob"), (1, "alice")] ∧
    writtenTo aliceBobServer
      (printLoopBody sampleEnv aliceBobServer (Payload.bytes errorPayload)) = [2] := by
  decide

/-- C7, amended.  The router has no point-to-point path: a decoded message of
kind "error" is written by `BroadcastMsg` to exactly the registered
connections whose username differs from the author of the message, so never
to a connection bound to the author.  The error messages of the server itself
are written by `MsgToClient` to the one connection given to it and are not
queued for the router. -/
theorem error_is_broadcast (E : Env) (s : Server) (p : Payload) (m : Msg)
    (hd : E.jsonUnmarshal (payloadBytes s p) = (m, true)) (hk : m.Type_ = "error") :
    (∀ c, c ∈ writtenTo s (printLoopBody E s p) ↔ ∃ u, (c, u) ∈ s.clients ∧ u ≠ m.Author) ∧
    (∀ txt t conn, (MsgToClient E s "error" txt t conn).state.msgch = s.msgch ∧
        writtenTo s (MsgToClient E s "error" txt t conn).state = [conn] ∧
        MsgToClient E s "error" txt t conn
          = Run.done (MsgToClient E s "error" txt t conn).state) := by
  have hm : (E.jsonUnmarshal (payloadBytes s p)).1 = m := by rw [hd]
  have hw := printLoopBody_writes_pos E s p
    (by rw [hm]; exact Colorize_Text_pos m (Or.inr (Or.inr hk)))
  rw [hm] at hw
  refine ⟨mem_writtenTo_iff s _ m.Author _ hw, ?_⟩
  intro txt t conn
  simp [MsgToClient, timeNow, println, connWrite, writtenTo, Run.state]

/-- The routing of an error message of "alice" with "alice" and "bob" registered. -/
theorem error_is_broadcast_witness :
    sampleEnv.jsonUnmarshal errorPayload
      = (⟨"error", "alice", "boom", "2024-05-01 10:00:20"⟩, true) ∧
    (∀ c, c ∈ writtenTo aliceBobServer
        (printLoopBody sampleEnv aliceBobServer (Payload.bytes errorPayload)) ↔
      ∃ u, (c, u) ∈ aliceBobServer.clients ∧ u ≠ "alice") :=
  ⟨by decide,
    (error_is_broadcast sampleEnv aliceBobServer (Payload.bytes errorPayload)
      ⟨"error", "alice", "boom", "2024-05-01 10:00:20"⟩ (by decide) rfl).1⟩

/-- C8.  For a decoded message of kind "msg" or "notif", the router writes the
encoded, decorated message to exactly the registered connections whose
username differs from the author of the message: a connection bound to the
author is not written to, every other registered connection is. -/
theorem broadcast_targets (E : Env) (s : Server) (p : Payload) (m : Msg)
    (hd : E.jsonUnmarshal (payloadBytes s p) = (m, true))
    (hk : m.Type_ = "msg" ∨ m.Type_ = "notif") :
    (printLoopBody E s p).writes
      = s.writes ++ (s.clients.filter (fun q => decide (q.2 ≠ m.Author))).map
          (fun q => (q.1, E.EncodeMsg (Colorize m))) ∧
    (∀ c, c ∈ writtenTo s (printLoopBody E s p) ↔ ∃ u, (c, u) ∈ s.clients ∧ u ≠ m.Author) ∧
    (∀ c, (c, m.Author) ∈ s.clients → (s.clients.map Prod.fst).Nodup →
      c ∉ writtenTo s (printLoopBody E s p)) := by
  have hm : (E.jsonUnmarshal (payloadBytes s p)).1 = m := by rw [hd]
  have hw := printLoopBody_writes_pos E s p
    (by rw [hm]; exact Colorize_Text_pos m (hk.elim Or.inl (fun h => Or.inr (Or.inl h))))
  rw [hm] at hw
  have hiff := mem_writtenTo_iff s _ m.Author _ hw
  refine ⟨hw, hiff, ?_⟩
  intro c hc hnd hmem
  obtain ⟨u, hu, hne⟩ := (hiff c).1 hmem
  have hinj : ∀ (l : List (Conn × String)), (l.map Prod.fst).Nodup →
      ∀ a b, (c, a) ∈ l → (c, b) ∈ l → a = b := by
    intro l
    induction l with
    | nil => intro _ a b ha; cases ha
    | cons q rest ih =>
      intro hn a b ha hb
      rw [List.map_cons, List.nodup_cons] at hn
      rcases List.mem_cons.1 ha with ea | ha'
      · rcases List.mem_cons.1 hb with eb | hb'
        · exact (congrArg Prod.snd ea).trans (congrArg Prod.snd eb).symm
        · have hq : q.1 = c := (congrArg Prod.fst ea).symm
          rw [hq] at hn
          exact absurd (List.mem_map.2 ⟨(c, b), hb', rfl⟩) hn.1
      · rcases List.mem_cons.1 hb with eb | hb'
        · have hq : q.1 = c := (congrArg Prod.fst eb).symm
          rw [hq] at hn
          exact absurd (List.mem_map.2 ⟨(c, a), ha', rfl⟩) hn.1
        · exact ih hn.2 a b ha' hb'
  exact hne (hinj s.clients hnd u m.Author hu hc)

/-- The broadcast of a chat message of "alice" with "alice" and "bob" registered. -/
theorem broadcast_targets_witness :
    sampleEnv.jsonUnmarshal chatPayload = (⟨"msg", "alice", "hi", "2024-05-01 10:00:21"⟩, true) ∧
    writtenTo aliceBobServer
      (printLoopBody sampleEnv aliceBobServer (Payload.bytes chatPayload)) = [2] ∧
    (∀ c, c ∈ writtenTo aliceBobServer
        (printLoopBody sampleEnv aliceBobServer (Payload.bytes chatPayload)) ↔
      ∃ u, (c, u) ∈ aliceBobServer.clients ∧ u ≠ "alice") :=
  ⟨by decide, by decide,
    (broadcast_targets sampleEnv aliceBobServer (Payload.bytes chatPayload)
      ⟨"msg", "alice", "hi", "2024-05-01 10:00:21"⟩ (by decide) (Or.inl rfl)).2.1⟩

/-! ## The rendering of the log -/

/-- C9, as stated, fails: a log made of one "logs" entry with the text
"Read the log file" is rendered as that text, not as nothing. -/
theorem logs_entry_counterexample :
    MsgLogsToText sampleEnv [logsEntry] = "Read the log file" ∧
    String.join ([logsEntry].map (specPiece sampleEnv)) = "" ∧
    MsgLogsToText sampleEnv [logsEntry]
      ≠ String.join ([logsEntry].map (specPiece sampleEnv)) := by
  decide

/-- C9, amended.  `MsgLogsToText(logs)` is the concatenation, in order, of one
piece per entry: for a "msg" entry the author and date followed by the body,
for a "notif" or "error" entry the body followed by a line break, and for a
"logs" entry the body alone, so that it adds nothing only when its text is
empty.  On every entry that is not a "logs" entry the piece is the one of the
specification. -/
theorem MsgLogsToText_pieces (E : Env) (logs : List Msg) :
    MsgLogsToText E logs = String.join (logs.map (bodyPiece E)) ∧
    (∀ m : Msg, m.Type_ = "logs" → bodyPiece E m = m.Text) ∧
    (∀ m : Msg, m.Type_ ≠ "logs" → bodyPiece E m = specPiece E m) := by
  refine ⟨?_, ?_, ?_⟩
  · have h := foldl_render E logs ""
    simpa [MsgLogsToText] using h
  · intro m hm
    have h1 : ¬ (("logs" : String) = "msg") := by decide
    have h2 : ¬ (("logs" : String) = "notif" ∨ ("logs" : String) = "error") := by decide
    simp only [bodyPiece, hm, h1, h2, if_false]
  · intro m hm
    simp only [bodyPiece, specPiece, hm, if_false]

/-- The rendering of a log of three entries, and the piece of its "logs" entry. -/
theorem MsgLogsToText_pieces_witness :
    MsgLogsToText sampleEnv [logsEntry, ⟨"notif", "bob", "bob has joined", "d"⟩, logsEntry]
      = "Read the log filebob has joined\nRead the log file" ∧
    bodyPiece sampleEnv logsEntry = "Read the log file" :=
  ⟨by decide, (MsgLogsToText_pieces sampleEnv []).2.1 logsEntry rfl⟩

/-! ## Departure -/

/-- C10, as stated, fails: on the server where ten connections have
registered, ten payloads are pending in the channel; when the reader of
connection 1, bound to "ana", reads end of stream, it blocks in the send of
the notice: nothing is pushed and connection 1 is still registered. -/
theorem departure_blocks_counterexample :
    Reachable sampleEnv fullServer ∧
    mapGet fullServer.clients 1 "" = "ana" ∧
    fullServer.msgch.length = chanCap ∧
    (readLoop sampleEnv fullServer 1 [ReadEvent.eof]).1
      = Run.blocked { fullServer with clock := fullServer.clock + 1 }
          (leftNotice sampleEnv fullServer 1) ∧
    (readLoop sampleEnv fullServer 1 [ReadEvent.eof]).1.state.msgch = fullServer.msgch ∧
    (1, "ana") ∈ (readLoop sampleEnv fullServer 1 [ReadEvent.eof]).1.state.clients :=
  ⟨Reachable_registerAll sampleEnv tenUsers _ (Reachable.init _), by decide, by decide,
    by decide, by decide, by decide⟩

/-- C10, amended.  When `readLoop` reads end of stream on a connection: if the
name `u` that `s.clients` binds to the connection is not empty, the notice of
author `u` and text `u + " has left our chat..."` is sent on the channel; with
fewer than `chanCap` payloads pending, exactly that one message is queued and
the connection is then no longer in `s.clients`; with `chanCap` payloads
pending the reader blocks in the send, nothing queued and `s.clients`
unchanged.  If no name is bound to the connection, nothing is queued and
`s.clients` is unchanged. -/
theorem departure_on_eof (E : Env) (s : Server) (conn : Conn) (rest : List ReadEvent)
    (msgCount : Nat) :
    (∀ u, mapGet s.clients conn "" = u → u ≠ "" → s.msgch.length < chanCap →
      ∃ s', (readLoopFrom E conn (ReadEvent.eof :: rest) s msgCount).1 = Run.done s' ∧
        s'.msgch = s.msgch ++ [Payload.bytes (E.jsonMarshal ⟨"notif", u,
            u ++ " has left our chat...", E.timeNow s.clock⟩)] ∧
        s'.clients = mapDelete s.clients conn ∧
        (∀ v, (conn, v) ∉ s'.clients)) ∧
    (∀ u, mapGet s.clients conn "" = u → u ≠ "" → ¬ s.msgch.length < chanCap →
      ∃ s', (readLoopFrom E conn (ReadEvent.eof :: rest) s msgCount).1
          = Run.blocked s' (Payload.bytes (E.jsonMarshal ⟨"notif", u,
              u ++ " has left our chat...", E.timeNow s.clock⟩)) ∧
        s'.msgch = s.msgch ∧ s'.clients = s.clients) ∧
    ((∀ v, (conn, v) ∉ s.clients) →
      ∃ s', (readLoopFrom E conn (ReadEvent.eof :: rest) s msgCount).1 = Run.done s' ∧
        s'.msgch = s.msgch ∧ s'.clients = s.clients) := by
  refine ⟨?_, ?_, ?_⟩
  · intro u hu hne room
    have hb : mapGet s.clients conn "" ≠ "" := by rw [hu]; exact hne
    simp only [readLoopFrom]
    rw [readLoopEOF_room E s conn hb room]
    refine ⟨_, rfl, ?_, rfl, ?_⟩
    · simp [connClose, closeConnection, enqueue, leftNotice, hu]
    · intro v hv
      exact (mem_mapDelete.1 hv).2 rfl
  · intro u hu hne full
    have hb : mapGet s.clients conn "" ≠ "" := by rw [hu]; exact hne
    simp only [readLoopFrom]
    rw [readLoopEOF_full E s conn hb full]
    refine ⟨{ s with clock := s.clock + 1 }, ?_, rfl, rfl⟩
    simp [Run.andThen, leftNotice, hu]
  · intro hnone
    have hb : mapGet s.clients conn "" = "" := mapGet_of_not_mem _ _ _ hnone
    simp only [readLoopFrom]
    rw [readLoopEOF_unbound E s conn hb]
    exact ⟨_, rfl, rfl, rfl⟩

/-- The departure of "alice" from connection 1 with room in the channel; end
of stream on connection 7, which never registered; and the departure of "ana"
from the server of ten, the channel full. -/
theorem departure_on_eof_witness :
    (mapGet aliceBobServer.clients 1 "" = "alice" ∧ aliceBobServer.msgch.length = 2 ∧
      ∃ s', (readLoopFrom sampleEnv 1 [ReadEvent.eof] aliceBobServer 0).1 = Run.done s' ∧
        s'.msgch = aliceBobServer.msgch ++ [Payload.bytes (sampleEnv.jsonMarshal ⟨"notif", "alice",
            "alice" ++ " has left our chat...", sampleEnv.timeNow aliceBobServer.clock⟩)] ∧
        s'.clients = mapDelete aliceBobServer.clients 1 ∧
        (∀ v, (1, v) ∉ s'.clients)) ∧
    (∃ s', (readLoopFrom sampleEnv 7 [ReadEvent.eof] aliceBobServer 0).1 = Run.done s' ∧
        s'.msgch = aliceBobServer.msgch ∧ s'.clients = aliceBobServer.clients) ∧
    (∃ s', (readLoopFrom sampleEnv 1 [ReadEvent.eof] fullServer 0).1
          = Run.blocked s' (Payload.bytes (sampleEnv.jsonMarshal ⟨"notif", "ana",
              "ana" ++ " has left our chat...", sampleEnv.timeNow fullServer.clock⟩)) ∧
        s'.msgch = fullServer.msgch ∧ s'.clients = fullServer.clients) :=
  ⟨⟨by decide, by decide,
      (departure_on_eof sampleEnv aliceBobServer 1 [] 0).1 "alice" (by decide) (by decide)
        (by decide)⟩,
    (departure_on_eof sampleEnv aliceBobServer 7 [] 0).2.2 (by
      intro v hv
      rw [show aliceBobServer.clients = [(2, "bob"), (1, "alice")] by decide] at hv
      simp at hv),
    (departure_on_eof sampleEnv fullServer 1 [] 0).2.1 "ana" (by decide) (by decide)
      (by decide)⟩

end NetCat
